import Mathlib

set_option maxRecDepth 10000

/-!
Verification of the `warp-solver-validation` repository.

The Python sources (`generate_solver_equations.py`, `solver.py`,
`run_validation.py`) are shallowly embedded below.  Strings are modelled as
`List Char` internally (with `String` wrappers keeping the source names), each
`re.sub`/`re.match`/`re.search` call is embedded as a bespoke scanner that is
faithful to the backtracking semantics of the concrete pattern it implements,
and the NumPy state vectors of `solver.py` are modelled as lists of rationals
(floating-point arithmetic is abstracted to exact arithmetic).
-/

namespace WarpSolver

/-- Python `str.isspace` / regex `\s` for the ASCII fragment. -/
def pySpace (c : Char) : Bool :=
  c = ' ' || c = '\t' || c = '\n' || c = '\x0b' || c = '\x0c' || c = '\r'

/-- Regex `\d`. -/
def pyDigit (c : Char) : Bool := '0' ≤ c && c ≤ '9'

/-- Regex `\w` (ASCII fragment): letters, digits and underscore. -/
def pyWord (c : Char) : Bool :=
  pyDigit c || ('a' ≤ c && c ≤ 'z') || ('A' ≤ c && c ≤ 'Z') || c = '_'

/-- The two plain parenthesis characters (the set passed to `str.strip('()')`). -/
def parenChar (c : Char) : Bool := c = '(' || c = ')'

/-- Build a `String` back from the character-list model. -/
def strOf (l : List Char) : String := ⟨l⟩

/-- Remove leading and trailing characters satisfying `p`
(the semantics of Python `str.strip(chars)`). -/
def stripBy (p : Char → Bool) (l : List Char) : List Char :=
  ((l.dropWhile p).reverse.dropWhile p).reverse

/-- Python `str.strip()` (no argument): strip whitespace at both ends. -/
def pyStrip (l : List Char) : List Char := stripBy pySpace l

/-- Python `str.strip('()')`: strip any run of parenthesis characters at both ends. -/
def pyStripParens (l : List Char) : List Char := stripBy parenChar l

/-- Fuelled worker for `collapseWs` (fuel `≥` input length always suffices:
each step consumes at least one character). -/
def collapseWsGo : Nat → List Char → List Char
  | 0, l => l
  | _ + 1, [] => []
  | fuel + 1, c :: rest =>
    if pySpace c then ' ' :: collapseWsGo fuel (rest.dropWhile pySpace)
    else c :: collapseWsGo fuel rest

/-- `re.sub(r'\s+', ' ', ·)`: every maximal whitespace run becomes one space. -/
def collapseWs (l : List Char) : List Char := collapseWsGo l.length l

/-- Python `str.split(',')` (note: the empty string splits to `[""]`). -/
def splitComma : List Char → List (List Char)
  | [] => [[]]
  | c :: rest =>
    if c = ',' then [] :: splitComma rest
    else
      match splitComma rest with
      | [] => [[c]]
      | a :: as => (c :: a) :: as

/-- Python `', '.join(·)`. -/
def joinCommaSp : List (List Char) → List Char
  | [] => []
  | [a] => a
  | a :: rest => a ++ ',' :: ' ' :: joinCommaSp rest

/-- Leftmost-occurrence substring test (`pat in s` for non-empty `pat`). -/
def containsSub (pat : List Char) : List Char → Bool
  | [] => pat.isPrefixOf []
  | c :: rest => pat.isPrefixOf (c :: rest) || containsSub pat rest

/-- Fuelled worker for `countSub`. -/
def countSubGo (pat : List Char) : Nat → List Char → Nat
  | 0, _ => 0
  | _ + 1, [] => 0
  | fuel + 1, c :: rest =>
    if pat.isPrefixOf (c :: rest) then
      countSubGo pat fuel (rest.drop (pat.length - 1)) + 1
    else countSubGo pat fuel rest

/-- Python `str.count`: number of non-overlapping occurrences, scanning left to
right (`pat` is assumed non-empty). -/
def countSub (pat : List Char) (l : List Char) : Nat := countSubGo pat l.length l

/-- Fuelled worker for `removeAll`. -/
def removeAllGo (pats : List (List Char)) : Nat → List Char → List Char
  | 0, l => l
  | _ + 1, [] => []
  | fuel + 1, c :: rest =>
    match pats.findSome? (fun p =>
        if p.isEmpty then none
        else if p.isPrefixOf (c :: rest) then some p.length else none) with
    | some k => removeAllGo pats fuel (rest.drop (k - 1))
    | none => c :: removeAllGo pats fuel rest

/-- Python `str.replace(pat, "")` for a non-empty literal `pat`
(also the `re.sub(pat, '', ·)` of an alternation of literals: at each position
the alternatives are tried in order, a match consumes the literal). -/
def removeAll (pats : List (List Char)) (l : List Char) : List Char :=
  removeAllGo pats l.length l

/-- Generic left-to-right `re.sub` scanner.  `try?` inspects a suffix and, on a
match, returns the replacement text together with the remainder of the input
after the matched span (every match consumes at least one character; `fuel`
starts at the length of the input, which suffices). -/
def subScanGo (try? : List Char → Option (List Char × List Char)) :
    Nat → List Char → List Char
  | 0, l => l
  | _ + 1, [] => []
  | fuel + 1, c :: rest =>
    match try? (c :: rest) with
    | some (out, rest2) => out ++ subScanGo try? fuel rest2
    | none => c :: subScanGo try? fuel rest

/-- Run a scanner over a whole string. -/
def subScan (try? : List Char → Option (List Char × List Char))
    (l : List Char) : List Char :=
  subScanGo try? l.length l

/-! ## `clean_function_args` (generate_solver_equations.py, lines 159-209) -/

/-- Python `$` (no `re.MULTILINE`): matches at the end of the string or just
before one final newline. -/
def atEndPy : List Char → Bool
  | [] => true
  | ['\n'] => true
  | _ => false

/-- The common tail `h\s*\+\s*r$` of the three shifted-coordinate patterns,
applied after the digit group: consecutive greedy pieces have disjoint
character classes, so the backtracking regex is equivalent to this
deterministic parser. -/
def hPlusRTail (r : List Char) : Bool :=
  match r with
  | 'h' :: r3 =>
    match r3.dropWhile pySpace with
    | '+' :: r4 =>
      match r4.dropWhile pySpace with
      | 'r' :: r5 => atEndPy r5
      | _ => false
    | _ => false
  | _ => false

/-- `re.match(r'^-\s*(\d*)\s*h\s*\+\s*r$', ·)`, returning the digit group. -/
def matchNegHR (l : List Char) : Option (List Char) :=
  match l with
  | '-' :: r0 =>
    let r1 := r0.dropWhile pySpace
    let d := r1.takeWhile pyDigit
    if hPlusRTail ((r1.dropWhile pyDigit).dropWhile pySpace) then some d else none
  | _ => none

/-- `re.match(r'^(\d*)\s*h\s*\+\s*r$', ·)`, returning the digit group. -/
def matchPosHR (l : List Char) : Option (List Char) :=
  let d := l.takeWhile pyDigit
  if hPlusRTail ((l.dropWhile pyDigit).dropWhile pySpace) then some d else none

/-- `re.match(r'^(\d+)\s*h\s*\+\s*r$', ·)` (source line 195; subsumed by the
previous `elif`, hence unreachable, but embedded faithfully). -/
def matchPosHRPlus (l : List Char) : Option (List Char) :=
  let d := l.takeWhile pyDigit
  if d.isEmpty then none
  else if hPlusRTail ((l.dropWhile pyDigit).dropWhile pySpace) then some d else none

/-- `re.match(r'^h\s*-\s*\\theta$', ·)`. -/
def matchThetaArg (l : List Char) : Bool :=
  match l with
  | 'h' :: r0 =>
    match r0.dropWhile pySpace with
    | '-' :: r1 =>
      let r2 := r1.dropWhile pySpace
      "\\theta".data.isPrefixOf r2 && atEndPy (r2.drop 6)
    | _ => false
  | _ => false

/-- All-whitespace test (used for the `\s*` pieces of the line-206 regex). -/
def allWs (l : List Char) : Bool := l.all pySpace

/-- Inner loop of `re.sub(r'^\(\s*(.+)\s*\)$', r'\1', ·)` over the text strictly
between the outer parentheses: the leading `\s*` is greedy but backtracks (`a`
counts the whitespace it keeps), `(.+)` then takes the maximal newline-free
run, and the match succeeds iff what remains is all whitespace (the trailing
`\s*` + `\)` + `$`). -/
def sopLoop (mid : List Char) : Nat → Option (List Char)
  | 0 =>
    let b := (mid.takeWhile (fun c => !(c = '\n'))).length
    if 1 ≤ b && allWs (mid.drop b) then some (mid.take b) else none
  | a + 1 =>
    let rest1 := mid.drop (a + 1)
    let b := (rest1.takeWhile (fun c => !(c = '\n'))).length
    if 1 ≤ b && allWs (rest1.drop b) then some (rest1.take b)
    else sopLoop mid a

/-- `re.sub(r'^\(\s*(.+)\s*\)$', r'\1', ·)` (source line 206): if the whole
string is a parenthesised group, replace it by the group's content. -/
def stripOuterParen (l : List Char) : List Char :=
  let hasNl := l.getLast? = some '\n'
  let core := if hasNl then l.dropLast else l
  let tl : List Char := if hasNl then ['\n'] else []
  match core with
  | '(' :: rest =>
    match rest.getLast? with
    | some ')' =>
      let mid := rest.dropLast
      match sopLoop mid (mid.takeWhile pySpace).length with
      | some g => g ++ tl
      | none => l
    | _ => l
  | _ => l

/-- One iteration of the `for arg in args` loop body (lines 173-207). -/
def cleanOneArg (arg : List Char) : List Char :=
  let a := pyStripParens (pyStrip arg)
  match matchNegHR a with
  | some d =>
    let num := pyStrip d
    if num.isEmpty then "r - h".data else "r - ".data ++ num ++ "h".data
  | none =>
  match matchPosHR a with
  | some d =>
    let num := pyStrip d
    if num.isEmpty then "r + h".data else "r + ".data ++ num ++ "h".data
  | none =>
  match matchPosHRPlus a with
  | some d => "r + ".data ++ d ++ "h".data
  | none =>
  if matchThetaArg a then "\\theta - h".data
  else stripOuterParen (collapseWs (pyStrip a))

/-- The three delimiter-removal alternation patterns of lines 165-167. -/
def latexStripPats1 : List (List Char) := ["\\left(".data, ")\\right".data]

def latexStripPats2 : List (List Char) := ["\\left".data, "\\right".data]

def latexStripPats3 : List (List Char) := ["\\bigr)".data, "\\bigl(".data]

/-- `clean_function_args` on the character-list model. -/
def cleanFunctionArgsL (argsStr : List Char) : List Char :=
  let s1 := removeAll latexStripPats1 argsStr
  let s2 := removeAll latexStripPats2 s1
  let s3 := removeAll latexStripPats3 s2
  let args := (splitComma s3).map pyStrip
  joinCommaSp (args.map cleanOneArg)

/-- `clean_function_args` (source lines 159-209). -/
def clean_function_args (argsStr : String) : String :=
  strOf (cleanFunctionArgsL argsStr.data)

/-! ## `clean_latex_expression` (generate_solver_equations.py, lines 73-157)

Steps 1-3 all use regexes of the shape `PRE ([^}]*) SUF \}` where `SUF` is
brace-free: such a pattern matches at a position iff the text starts with
`PRE`, the maximal brace-free run after `PRE` ends with `SUF`, and the run is
followed by `}` (the group is the run minus `SUF`). -/

/-- Try the shape `PRE ([^}]*) SUF \}` at the head of `l`; on success return
the group and the remainder after the whole match. -/
def tryShape (pre suf : List Char) (l : List Char) : Option (List Char × List Char) :=
  if pre.isPrefixOf l then
    let rest := l.drop pre.length
    let run := rest.takeWhile (fun c => !(c = '\x7d'))
    match rest.drop run.length with
    | '\x7d' :: rest3 =>
      if suf.isSuffixOf run then
        some (run.take (run.length - suf.length), rest3)
      else none
    | _ => none
  else none

/-- `re.sub` over a whole string for a shape pattern, with the replacement
built from the group by `repl`. -/
def subShape (pre suf : List Char) (repl : List Char → List Char)
    (l : List Char) : List Char :=
  subScan (fun t =>
    match tryShape pre suf t with
    | some (g, rest) => some (repl g, rest)
    | none => none) l

/-- `re.sub(r'\b' + w + r'\b', repl, ·)` for a word `w`: a word-boundary match
needs a non-word character (or the string edge) on both sides.  `prev` is the
character just before the current scanning position. -/
def subWordGo (w repl : List Char) : Nat → Option Char → List Char → List Char
  | 0, _, l => l
  | _ + 1, _, [] => []
  | fuel + 1, prev, c :: rest =>
    let leftOk := match prev with
      | none => true
      | some p => !pyWord p
    let rightOk := match (c :: rest).drop w.length with
      | [] => true
      | d :: _ => !pyWord d
    if leftOk && w.isPrefixOf (c :: rest) && rightOk then
      repl ++ subWordGo w repl fuel w.getLast? ((c :: rest).drop w.length)
    else
      c :: subWordGo w repl fuel (some c) rest

def subWord (w repl : List Char) (l : List Char) : List Char :=
  subWordGo w repl l.length none l

/-- Literal-pattern `re.sub` (also Python `str.replace`). -/
def subLit (pat repl : List Char) (l : List Char) : List Char :=
  subScan (fun t =>
    if pat.isPrefixOf t then some (repl, t.drop pat.length) else none) l

/-- `re.sub(r'dr\^\{(\d+)\}', r'dr^{\1}', ·)` (source line 126; the
replacement reproduces the match verbatim). -/
def subDrPow (l : List Char) : List Char :=
  subScan (fun t =>
    if "dr^\x7b".data.isPrefixOf t then
      let rest := t.drop 4
      let d := rest.takeWhile pyDigit
      if d.isEmpty then none
      else
        match rest.drop d.length with
        | '\x7d' :: rest2 => some ("dr^\x7b".data ++ d ++ ['\x7d'], rest2)
        | _ => none
    else none) l

/-- `re.sub(r'(\d+)\s*d\\theta\^?\{?2\}?', r'\1\,d\theta^{2}', ·)`
(source line 127). -/
def subNumDTheta (l : List Char) : List Char :=
  subScan (fun t =>
    let d := t.takeWhile pyDigit
    if d.isEmpty then none
    else
      let r1 := (t.drop d.length).dropWhile pySpace
      if "d\\theta".data.isPrefixOf r1 then
        let r2 := r1.drop 7
        let r3 := match r2 with | '^' :: u => u | _ => r2
        let r4 := match r3 with | '\x7b' :: u => u | _ => r3
        match r4 with
        | '2' :: r5 =>
          let r6 := match r5 with | '\x7d' :: u => u | _ => r5
          some (d ++ "\\,d\\theta^\x7b2\x7d".data, r6)
        | _ => none
      else none) l

/-- `re.sub(r'(\d+)\s*h\s*r', r'\1\,h\,r', ·)` (source line 128). -/
def subNumHR (l : List Char) : List Char :=
  subScan (fun t =>
    let d := t.takeWhile pyDigit
    if d.isEmpty then none
    else
      match (t.drop d.length).dropWhile pySpace with
      | 'h' :: r1 =>
        match r1.dropWhile pySpace with
        | 'r' :: r2 => some (d ++ "\\,h\\,r".data, r2)
        | _ => none
      | _ => none) l

/-- `re.sub(r'\s*\+\s*', ' + ', ·)` (source line 131). -/
def subPlusSpacing (l : List Char) : List Char :=
  subScan (fun t =>
    let sp := t.takeWhile pySpace
    match t.drop sp.length with
    | '+' :: r1 => some (" + ".data, r1.dropWhile pySpace)
    | _ => none) l

/-- `re.sub(r'(?<!\\)\s*-\s*', ' - ', ·)` (source line 132): the negative
lookbehind requires that the character before the match start is not a
backslash, so the scanner tracks the previous character. -/
def subMinusSpacingGo : Nat → Option Char → List Char → List Char
  | 0, _, l => l
  | _ + 1, _, [] => []
  | fuel + 1, prev, c :: rest =>
    let lbOk := match prev with
      | none => true
      | some p => !(p = '\\')
    let sp := (c :: rest).takeWhile pySpace
    match lbOk, (c :: rest).drop sp.length with
    | true, '-' :: r1 =>
      let r2 := r1.dropWhile pySpace
      " - ".data ++ subMinusSpacingGo fuel (some ' ') r2
    | _, _ => c :: subMinusSpacingGo fuel (some c) rest

def subMinusSpacing (l : List Char) : List Char :=
  subMinusSpacingGo l.length none l

/-- `re.sub(r'(\+|\()\s*-\s*', r'\1-\,', ·)` (source line 135). -/
def subOpMinus (l : List Char) : List Char :=
  subScan (fun t =>
    match t with
    | c :: r0 =>
      if c = '+' || c = '(' then
        match r0.dropWhile pySpace with
        | '-' :: r1 => some ([c] ++ "-\\,".data, r1.dropWhile pySpace)
        | _ => none
      else none
    | [] => none) l

/-- `re.sub(r'^-\s*', r'-\,', ·)` (source line 136): anchored, at most one
substitution at position 0. -/
def subLeadingMinus (l : List Char) : List Char :=
  match l with
  | '-' :: r0 => "-\\,".data ++ r0.dropWhile pySpace
  | _ => l

/-- Replacement used by `handle_bigr_function` (lines 86-89). -/
def bigrNegRepl (g : List Char) : List Char :=
  "-\\,f(".data ++ cleanFunctionArgsL g ++ [')']

/-- Replacement used by `handle_positive_bigr_function` (lines 95-98). -/
def bigrPosRepl (g : List Char) : List Char :=
  "f(".data ++ cleanFunctionArgsL g ++ [')']

/-- Replacement used by `fix_operatorname_bigl` (lines 105-107). -/
def operatornameBiglRepl (g : List Char) : List Char :=
  "\\bigl(".data ++ g ++ "\\bigr)".data

/-- Replacement used by `clean_remaining_function_call` (lines 112-115). -/
def cleanCallRepl (g : List Char) : List Char :=
  "f(".data ++ cleanFunctionArgsL g ++ [')']

/-- Step 1 of `clean_latex_expression` (lines 84-101): the four `bigr f{...}`
substitutions, applied as successive full passes. -/
def cleanStep1 (l : List Char) : List Char :=
  let e1 := subShape "- bigr f\x7b\\left(".data ")\\right".data bigrNegRepl l
  let e2 := subShape "- bigr f\x7b".data [] bigrNegRepl e1
  let e3 := subShape "bigr f\x7b\\left(".data ")\\right".data bigrPosRepl e2
  subShape "bigr f\x7b".data [] bigrPosRepl e3

/-- Step 2 (line 109): `\operatorname{bigl}{\left( ... )\right}`. -/
def cleanStep2 (l : List Char) : List Char :=
  subShape "\\operatorname\x7bbigl\x7d\x7b\\left(".data ")\\right".data
    operatornameBiglRepl l

/-- Step 3 (lines 117-118): remaining `f{...}` function calls. -/
def cleanStep3 (l : List Char) : List Char :=
  let e1 := subShape "f\x7b\\left(".data ")\\right".data cleanCallRepl l
  subShape "f\x7b".data [] cleanCallRepl e1

/-- Step 4 (lines 121-122): bare `dtheta`/`dphi` with word boundaries. -/
def cleanStep4 (l : List Char) : List Char :=
  let e1 := subWord "dtheta".data "d\\theta".data l
  subWord "dphi".data "d\\phi".data e1

/-- Step 5 (lines 125-136): exponent/spacing fixes. -/
def cleanStep5 (l : List Char) : List Char :=
  let e1 := subLit "dr^\x7b\x7b2\x7d\x7d".data "dr^\x7b2\x7d".data l
  let e2 := subDrPow e1
  let e3 := subNumDTheta e2
  let e4 := subNumHR e3
  let e5 := subPlusSpacing e4
  let e6 := subMinusSpacing e5
  let e7 := subOpMinus e6
  subLeadingMinus e7

/-- Composition of steps 1-5: everything `clean_latex_expression` executes
before the `return` on line 138. -/
def cleanSteps1to5 (l : List Char) : List Char :=
  cleanStep5 (cleanStep4 (cleanStep3 (cleanStep2 (cleanStep1 l))))

/-- `clean_latex_expression` (source lines 73-157).  The function returns on
line 138, immediately after the spacing step, so the statements on lines
140-157 are never executed. -/
def clean_latex_expression (expr : String) : String :=
  let e1 := cleanStep1 expr.data
  let e2 := cleanStep2 e1
  let e3 := cleanStep3 e2
  let e4 := cleanStep4 e3
  let e5 := cleanStep5 e4
  strOf e5

/-- `re.sub(r'f\(([^)]*?)\\bigr\)', r'f(\1)', ·)` (dead source line 145).
The lazy group scans non-`)` characters until `\bigr)` follows. -/
def subStrayBigr (l : List Char) : List Char :=
  subScan (fun t =>
    if "f(".data.isPrefixOf t then
      let rec lazyTo : Nat → List Char → List Char → Option (List Char × List Char) :=
        fun fuel acc u =>
          match fuel with
          | 0 => none
          | fuel + 1 =>
            if "\\bigr)".data.isPrefixOf u then some (acc.reverse, u.drop 6)
            else match u with
              | [] => none
              | ')' :: _ => none
              | c :: rest => lazyTo fuel (c :: acc) rest
      match lazyTo t.length [] (t.drop 2) with
      | some (g, rest) => some ("f(".data ++ g ++ [')'], rest)
      | none => none
    else none) l

/-- `re.sub(r'f\(([^)]*?)\\bigl\(', r'f(\1)', ·)` (dead source line 146). -/
def subStrayBigl (l : List Char) : List Char :=
  subScan (fun t =>
    if "f(".data.isPrefixOf t then
      let rec lazyTo : Nat → List Char → List Char → Option (List Char × List Char) :=
        fun fuel acc u =>
          match fuel with
          | 0 => none
          | fuel + 1 =>
            if "\\bigl(".data.isPrefixOf u then some (acc.reverse, u.drop 6)
            else match u with
              | [] => none
              | ')' :: _ => none
              | c :: rest => lazyTo fuel (c :: acc) rest
      match lazyTo t.length [] (t.drop 2) with
      | some (g, rest) => some ("f(".data ++ g ++ [')'], rest)
      | none => none
    else none) l

/-- `re.sub(r'\\bigl\(([^)]*)\)', r'\bigl(\1\bigr)', ·)` (dead source
line 155): greedy non-`)` run followed by a required `)`. -/
def subBiglRepair (l : List Char) : List Char :=
  subScan (fun t =>
    if "\\bigl(".data.isPrefixOf t then
      let rest := t.drop 6
      let run := rest.takeWhile (fun c => !(c = ')'))
      match rest.drop run.length with
      | ')' :: rest2 =>
        some ("\\bigl(".data ++ run ++ "\\bigr)".data, rest2)
      | _ => none
    else none) l

/-- The statements on source lines 140-157, which sit after the `return` of
line 138 and are therefore unreachable: a duplicate of the two minus-spacing
substitutions, the two stray-delimiter cleanups inside `f(...)`, and the
count-based `\bigl(`/`\bigr)` repair. -/
def cleanDeadCode (l : List Char) : List Char :=
  let e1 := subOpMinus l
  let e2 := subLeadingMinus e1
  let e3 := subStrayBigr e2
  let e4 := subStrayBigl e3
  let biglCount := countSub "\\bigl(".data e4
  let bigrCount := countSub "\\bigr)".data e4
  if biglCount = bigrCount then e4 else subBiglRepair e4

/-! ## `validate_latex_balance` (generate_solver_equations.py, lines 211-243) -/

/-- Leftmost occurrence splitter: `some (before, after)` where `before` is the
text preceding the first occurrence of `pat` and `after` the text following
it. -/
def splitAfterSub (pat : List Char) : List Char → Option (List Char × List Char)
  | [] => none
  | c :: rest =>
    if pat.isPrefixOf (c :: rest) then some ([], rest.drop (pat.length - 1))
    else
      match splitAfterSub pat rest with
      | some (b, a) => some (c :: b, a)
      | none => none

/-- Fuelled worker for `mathBlocks` (each found block consumes at least the
two delimiters, so fuel `≥` input length suffices). -/
def mathBlocksGo : Nat → List Char → List (List Char)
  | 0, _ => []
  | fuel + 1, l =>
    match splitAfterSub "\\[".data l with
    | none => []
    | some (_, rest) =>
      match splitAfterSub "\\]".data rest with
      | none => []
      | some (content, rest2) => content :: mathBlocksGo fuel rest2

/-- `re.findall(r'\\\[(.*?)\\]', ·, re.DOTALL)`: the non-greedy content runs
from each `\[` to the next following `\]`. -/
def mathBlocks (l : List Char) : List (List Char) := mathBlocksGo l.length l

/-- The `for char in block` loop of lines 232-239: `none` as soon as the
running count goes negative, otherwise the final count. -/
def parenWalk : List Char → Int → Option Int
  | [], n => some n
  | c :: rest, n =>
    let n' := if c = '(' then n + 1 else if c = ')' then n - 1 else n
    if n' < 0 then none else parenWalk rest n'

/-- The `for i, block in enumerate(math_blocks)` loop of lines 231-241:
`none` means no error, `some msg` the first error message. -/
def checkBlocks : List (List Char) → Nat → Option String
  | [], _ => none
  | b :: rest, i =>
    match parenWalk b 0 with
    | none => some ("Unmatched closing parenthesis in math block " ++ Nat.repr (i + 1))
    | some n =>
      if n = 0 then checkBlocks rest (i + 1)
      else
        some ("Unmatched opening parentheses in math block " ++ Nat.repr (i + 1)
          ++ ": " ++ toString n ++ " extra")

/-- `validate_latex_balance` (source lines 211-243): returns
`(is_valid, message)` (the Python local variables `open_math`, `close_math`,
`open_bigl`, `close_bigr` are inlined). -/
def validate_latex_balance (text : String) : Bool × String :=
  if countSub "\\[".data text.data = countSub "\\]".data text.data then
    if countSub "\\bigl(".data text.data = countSub "\\bigr)".data text.data then
      match checkBlocks (mathBlocks text.data) 0 with
      | some msg => (false, msg)
      | none => (true, "All delimiters balanced")
    else
      (false, "Unbalanced delimiters: "
        ++ Nat.repr (countSub "\\bigl(".data text.data) ++ " \\bigl( vs "
        ++ Nat.repr (countSub "\\bigr)".data text.data) ++ " \\bigr)")
  else
    (false, "Unbalanced math blocks: "
      ++ Nat.repr (countSub "\\[".data text.data) ++ " \\[ vs "
      ++ Nat.repr (countSub "\\]".data text.data) ++ " \\]")

/-! ## `parse_stencil_file` (generate_solver_equations.py, lines 36-64)

The file-system read is abstracted: the function takes the file's text. -/

/-- Parsed stencil record; the source dict keys are `variable` (a Lean keyword,
rendered here as `varName`), `order` and `approximation`. -/
structure StencilData where
  varName : String
  order : String
  approximation : String
deriving Repr, DecidableEq

/-- `re.search(tag + r'(\w+)', ·)`: first position where the literal `tag` is
followed by at least one word character; the group is the maximal word run. -/
def searchTagWord (tag : List Char) : List Char → Option (List Char)
  | [] => none
  | c :: rest =>
    if tag.isPrefixOf (c :: rest) then
      match ((c :: rest).drop tag.length).takeWhile pyWord with
      | [] => searchTagWord tag rest
      | g => some g
    else searchTagWord tag rest

/-- `re.search(tag + r'(.+)', ·)` without `DOTALL`: the group is the maximal
non-newline run (at least one character). -/
def searchTagLine (tag : List Char) : List Char → Option (List Char)
  | [] => none
  | c :: rest =>
    if tag.isPrefixOf (c :: rest) then
      match ((c :: rest).drop tag.length).takeWhile (fun c => !(c = '\n')) with
      | [] => searchTagLine tag rest
      | g => some g
    else searchTagLine tag rest

/-- Lazy-group scan for `(.+?)\s+\quad` (with `DOTALL`): grow the group one
character at a time; it succeeds as soon as the remainder starts with a
non-empty whitespace run followed by `\quad` (`\quad` starts with a non-space
character, so only the maximal whitespace run can precede it). -/
def approxQuadHere (rest : List Char) : Bool :=
  let w2 := (rest.takeWhile pySpace).length
  1 ≤ w2 && "\\quad".data.isPrefixOf (rest.drop w2)

def approxGScan (acc : List Char) : List Char → Option (List Char)
  | [] => none
  | c :: rs =>
    if approxQuadHere rs then some (c :: acc).reverse
    else approxGScan (c :: acc) rs

/-- Backtracking over the length of the first `\s+` (greedy: longest first).
`k` counts the candidate length; each candidate hands the remainder to the
lazy group scan. -/
def approxS1Loop (rest0 : List Char) : Nat → Option (List Char)
  | 0 => none
  | k + 1 =>
    match approxGScan [] (rest0.drop (k + 1)) with
    | some g => some g
    | none => approxS1Loop rest0 k

/-- `re.search(r'\\approx\s+(.+?)\s+\\quad', ·, re.DOTALL)`: try each start
position left to right. -/
def searchApprox : List Char → Option (List Char)
  | [] => none
  | c :: rest =>
    match
      (if "\\approx".data.isPrefixOf (c :: rest) then
        let rest0 := (c :: rest).drop 7
        approxS1Loop rest0 (rest0.takeWhile pySpace).length
      else none) with
    | some g => some g
    | none => searchApprox rest

/-- `parse_stencil_file` (source lines 36-64), on the file's text. -/
def parse_stencil_file (text : String) : StencilData :=
  let t := text.data
  let v := match searchTagWord "% Variable: ".data t with
    | some g => strOf g
    | none => "unknown"
  let o := match searchTagLine "% Order: ".data t with
    | some g => strOf g
    | none => "unknown"
  let a := match searchApprox t with
    | some g => strOf (collapseWs (pyStrip g))
    | none => "\\text\x7bNo approximation found\x7d"
  ⟨v, o, a⟩

/-! ## `main` (generate_solver_equations.py, lines 245-366)

File-system effects are abstracted: `main` takes the directory listing, a map
from file name to file text, and the `--validate` flag; it returns the Python
return value of `main()` (`none` models `None`) together with the text written
to the output file (`""` when no file is written). -/

/-- The probe string of line 307; it tests for a substring of the
approximation. -/
def placeholderProbe : String := "a begin i m p t x"

/-- One iteration of the emission loop (source lines 299-340). -/
def emit_stencil (key : String) (d : StencilData) (isLast : Bool) : String :=
  let head := "\\section*\x7bStencil: " ++ key ++ "\x7d\n\n"
  if containsSub placeholderProbe.data d.approximation.data then
    head ++ "% Placeholder stencil - no finite difference approximation available\n\n"
  else
    let cleaned := clean_latex_expression d.approximation
    head
    ++ "\\[\n" ++ "k_1^\x7b" ++ key ++ "\x7d = " ++ cleaned ++ "\n\\]\n\n"
    ++ "\\[\nk_2^\x7b" ++ key ++ "\x7d = F_\x7b" ++ key
      ++ "\x7d\\left(X^n + \\frac\x7b\\Delta t\x7d\x7b2\x7d k_1\\right)\n\\]\n\n"
    ++ "\\[\nk_3^\x7b" ++ key ++ "\x7d = F_\x7b" ++ key
      ++ "\x7d\\left(X^n + \\frac\x7b\\Delta t\x7d\x7b2\x7d k_2\\right)\n\\]\n\n"
    ++ "\\[\nk_4^\x7b" ++ key ++ "\x7d = F_\x7b" ++ key
      ++ "\x7d\\left(X^n + \\Delta t \\, k_3\\right)\n\\]\n\n"
    ++ "\\[\nX^\x7bn+1\x7d = X^n + \\frac\x7b\\Delta t\x7d\x7b6\x7d \\left(k_1^\x7b"
      ++ key ++ "\x7d + 2k_2^\x7b" ++ key ++ "\x7d + 2k_3^\x7b" ++ key
      ++ "\x7d + k_4^\x7b" ++ key ++ "\x7d\\right)\n\\]\n\n"
    ++ (if isLast then "" else "\n")

/-- `fname.replace("stencil_", "").replace(".tex", "")` (source line 288). -/
def stencilKey (fname : String) : String :=
  strOf (subLit ".tex".data [] (subLit "stencil_".data [] fname.data))

/-- Python dict assignment `stencils[key] = data`: insertion order preserved,
an existing key keeps its position and gets the new value. -/
def insertOD (k : String) (v : StencilData) :
    List (String × StencilData) → List (String × StencilData)
  | [] => [(k, v)]
  | (k', v') :: rest =>
    if k' = k then (k', v) :: rest else (k', v') :: insertOD k v rest

/-- The parsing loop of source lines 286-294. -/
def buildStencils (contents : String → String) :
    List String → List (String × StencilData) → List (String × StencilData)
  | [], acc => acc
  | f :: fs, acc =>
    buildStencils contents fs (insertOD (stencilKey f) (parse_stencil_file (contents f)) acc)

/-- Lexicographic comparison on code points (Python string `<=`). -/
def lexLeChar : List Char → List Char → Bool
  | [], _ => true
  | _ :: _, [] => false
  | a :: as, b :: bs => if a = b then lexLeChar as bs else decide (a < b)

def insertSortedStr (x : String) : List String → List String
  | [] => [x]
  | y :: ys => if lexLeChar x.data y.data then x :: y :: ys else y :: insertSortedStr x ys

/-- Python `sorted` on strings. -/
def sortStrs : List String → List String
  | [] => []
  | x :: xs => insertSortedStr x (sortStrs xs)

/-- `main` (source lines 245-366) with file-system effects abstracted.
Returns `(return value of main(), text written to the output file)`.  When no
stencil file matches, line 283 executes a bare `return` (Python `None`) and no
output file is created. -/
def main (listing : List String) (contents : String → String)
    (validateFlag : Bool) : Option Nat × String :=
  let stencilFiles := sortStrs (listing.filter (fun f =>
    "stencil_".data.isPrefixOf f.data && ".tex".data.isSuffixOf f.data))
  match stencilFiles with
  | [] => (none, "")
  | _ :: _ =>
    let stencils := buildStencils contents stencilFiles []
    let lastKey := (stencils.map Prod.fst).getLast?
    let out := String.join (stencils.map (fun kd =>
      emit_stencil kd.1 kd.2 (some kd.1 == lastKey)))
    if validateFlag then
      if (validate_latex_balance out).1 then (some 0, out) else (some 1, out)
    else (some 0, out)

/-- The process exit status of a script run (source lines 365-366): `main()`
is called without `sys.exit`, so its return value is discarded and the
interpreter exits with status 0. -/
def script_exit_code (listing : List String) (contents : String → String)
    (validateFlag : Bool) : Nat :=
  let _ := main listing contents validateFlag
  0

/-! ## `solver.py` (lines 9-46)

NumPy arrays become lists of rationals; floating-point arithmetic is
abstracted to exact arithmetic. -/

/-- `np.zeros_like`. -/
def np_zeros_like (X : List ℚ) : List ℚ := X.map (fun _ => 0)

/-- Elementwise vector addition. -/
def vecAdd (a b : List ℚ) : List ℚ := List.zipWith (fun x y => x + y) a b

/-- Scalar multiplication. -/
def scalMul (c : ℚ) (v : List ℚ) : List ℚ := v.map (fun x => c * x)

/-- `integrate_step` (solver.py lines 9-38): the four stage derivatives are
all set to zero vectors and the RK4 update formula
`X + (dt/6.0) * (k1 + 2*k2 + 2*k3 + k4)` is applied. -/
def integrate_step (X : List ℚ) (dt : ℚ) : List ℚ :=
  let k1 := np_zeros_like X
  let k2 := np_zeros_like X
  let k3 := np_zeros_like X
  let k4 := np_zeros_like X
  vecAdd X (scalMul (dt / 6) (vecAdd (vecAdd (vecAdd k1 (scalMul 2 k2)) (scalMul 2 k3)) k4))

/-- `compute_rhs` (solver.py lines 40-46). -/
def compute_rhs (X : List ℚ) : List ℚ := np_zeros_like X

/-! ## Specification-side definitions

The remaining definitions do not embed source code; they state, in
self-contained terms, the properties the spec attributes to it. -/

/-- Contribution of one character to the parenthesis count. -/
def parenDelta (c : Char) : Int :=
  if c = '(' then 1 else if c = ')' then -1 else 0

/-- Running parenthesis count of a string. -/
def netParen : List Char → Int
  | [] => 0
  | c :: rest => parenDelta c + netParen rest

/-- Spec-side notion of balanced plain parentheses: no prefix closes more than
it has opened, and the whole string closes everything it opens. -/
def dyckBalanced (b : List Char) : Prop :=
  (∀ k, 0 ≤ netParen (b.take k)) ∧ netParen b = 0

/-- Spec-side balance condition (§4.3): the `\[`/`\]` counts match, the
`\bigl(`/`\bigr)` counts match, and the plain parentheses are balanced within
each math block. -/
def latexBalancedSpec (t : List Char) : Prop :=
  countSub "\\[".data t = countSub "\\]".data t ∧
  countSub "\\bigl(".data t = countSub "\\bigr)".data t ∧
  ∀ b ∈ mathBlocks t, dyckBalanced b

/-- A run of `n` spaces (for quantifying over "arbitrary internal spacing"). -/
def spc (n : Nat) : List Char := List.replicate n ' '

/-- The tail `h (spaces) + (spaces) r` common to both shifted-coordinate
argument shapes. -/
def hprTail (c e : Nat) : List Char := 'h' :: (spc c ++ ('+' :: (spc e ++ ['r'])))

/-- The raw shifted-coordinate argument `(digits) h + r` with arbitrary
internal spacing (`b`, `c`, `e` count the spaces at the three gaps). -/
def posShiftArg (d : List Char) (b c e : Nat) : List Char :=
  d ++ (spc b ++ hprTail c e)

/-- The raw shifted-coordinate argument `- (digits) h + r` with arbitrary
internal spacing (`a` counts the spaces after the minus sign). -/
def negShiftArg (a : Nat) (d : List Char) (b c e : Nat) : List Char :=
  '-' :: (spc a ++ posShiftArg d b c e)

/-! ## Shared lemmas -/

theorem mem_of_isPrefixOf {pat : List Char} :
    ∀ {t : List Char}, pat.isPrefixOf t = true → ∀ c ∈ pat, c ∈ t := by
  induction pat with
  | nil => intro t _ c hc; simp at hc
  | cons a as ih =>
    intro t h c hc
    cases t with
    | nil => simp [List.isPrefixOf] at h
    | cons b bs =>
      simp only [List.isPrefixOf, Bool.and_eq_true, beq_iff_eq] at h
      rcases List.mem_cons.1 hc with hca | hcas
      · exact List.mem_cons.2 (Or.inl (hca.trans h.1))
      · exact List.mem_cons.2 (Or.inr (ih h.2 c hcas))

theorem containsSub_eq_false {pat : List Char} (c : Char) (hc : c ∈ pat) :
    ∀ {l : List Char}, c ∉ l → containsSub pat l = false := by
  intro l
  induction l with
  | nil =>
    intro _
    cases pat with
    | nil => simp at hc
    | cons a as => simp [containsSub, List.isPrefixOf]
  | cons x rest ih =>
    intro hl
    have h1 : pat.isPrefixOf (x :: rest) = false := by
      cases hp : pat.isPrefixOf (x :: rest) with
      | false => rfl
      | true => exact absurd (mem_of_isPrefixOf hp c hc) hl
    have h2 : containsSub pat rest = false := ih (fun hm => hl (List.mem_cons_of_mem x hm))
    simp [containsSub, h1, h2]

theorem removeAllGo_id (pats : List (List Char)) :
    ∀ (fuel : Nat) (l : List Char), (∀ p ∈ pats, containsSub p l = false) →
      removeAllGo pats fuel l = l := by
  intro fuel
  induction fuel with
  | zero => intro l _; rfl
  | succ fuel ih =>
    intro l hl
    cases l with
    | nil => rfl
    | cons c rest =>
      have hfind : pats.findSome? (fun p =>
          if p.isEmpty then none
          else if p.isPrefixOf (c :: rest) then some p.length else none) = none := by
        rw [List.findSome?_eq_none_iff]
        intro p hp
        by_cases he : p.isEmpty
        · simp [he]
        · have := hl p hp
          simp only [containsSub, Bool.or_eq_false_iff] at this
          simp [he, this.1]
      have hrest : ∀ p ∈ pats, containsSub p rest = false := by
        intro p hp
        have := hl p hp
        simp only [containsSub, Bool.or_eq_false_iff] at this
        exact this.2
      simp only [removeAllGo, hfind]
      rw [ih rest hrest]

theorem removeAll_id {pats : List (List Char)} {l : List Char}
    (h : ∀ p ∈ pats, containsSub p l = false) : removeAll pats l = l :=
  removeAllGo_id pats l.length l h

theorem splitComma_of_not_mem : ∀ {l : List Char}, ',' ∉ l → splitComma l = [l] := by
  intro l
  induction l with
  | nil => intro _; rfl
  | cons c rest ih =>
    intro h
    have hc : ¬ (c = ',') := fun e => h (e ▸ List.mem_cons_self c rest)
    have hrest : ',' ∉ rest := fun hm => h (List.mem_cons_of_mem c hm)
    simp [splitComma, hc, ih hrest]

theorem dropWhile_idem (p : Char → Bool) :
    ∀ l : List Char, (l.dropWhile p).dropWhile p = l.dropWhile p := by
  intro l
  induction l with
  | nil => rfl
  | cons c rest ih =>
    by_cases h : p c
    · simp [List.dropWhile_cons_of_pos h, ih]
    · simp [List.dropWhile_cons_of_neg h]

theorem dropWhile_len_le (p : Char → Bool) :
    ∀ l : List Char, (l.dropWhile p).length ≤ l.length
  | [] => by simp [List.dropWhile]
  | c :: rest => by
    simp only [List.dropWhile]
    split
    · exact Nat.le_trans (dropWhile_len_le p rest) (Nat.le_succ _)
    · simp

theorem dropWhile_head_false {p : Char → Bool} {a : Char} {rest : List Char}
    (h : (a :: rest).dropWhile p = a :: rest) : p a = false := by
  by_cases hp : p a
  · rw [List.dropWhile_cons_of_pos hp] at h
    have hlen := congrArg List.length h
    have hle := dropWhile_len_le p rest
    simp only [List.length_cons] at hlen
    omega
  · simpa using hp

theorem dropWhile_reverse_of_fixed (p : Char → Bool) {A : List Char}
    (hA : A.dropWhile p = A) :
    ((A.reverse.dropWhile p).reverse).dropWhile p = (A.reverse.dropWhile p).reverse := by
  cases A with
  | nil => rfl
  | cons c rest =>
    have hc : p c = false := dropWhile_head_false hA
    have hrev : (c :: rest).reverse = rest.reverse ++ [c] := by simp
    rw [hrev, List.dropWhile_append]
    by_cases he : (rest.reverse.dropWhile p).isEmpty
    · simp only [he, if_pos]
      simp [List.dropWhile_cons, hc]
    · simp only [he, if_neg, Bool.false_eq_true, not_false_iff]
      rw [List.reverse_append]
      simp [List.dropWhile_cons, hc]

theorem stripBy_idem (p : Char → Bool) (l : List Char) :
    stripBy p (stripBy p l) = stripBy p l := by
  unfold stripBy
  have h1 : (((l.dropWhile p).reverse.dropWhile p).reverse).dropWhile p
      = ((l.dropWhile p).reverse.dropWhile p).reverse :=
    dropWhile_reverse_of_fixed p (dropWhile_idem p l)
  rw [h1, List.reverse_reverse, dropWhile_idem p]

theorem stripBy_eq_self {p : Char → Bool} {l : List Char}
    (h1 : l.dropWhile p = l) (h2 : l.reverse.dropWhile p = l.reverse) :
    stripBy p l = l := by
  unfold stripBy
  rw [h1, h2, List.reverse_reverse]

theorem dropWhile_spc_append (b : Nat) (l : List Char) :
    (spc b ++ l).dropWhile pySpace = l.dropWhile pySpace := by
  induction b with
  | zero => simp [spc]
  | succ n ih =>
    simp only [spc, List.replicate_succ, List.cons_append]
    rw [List.dropWhile_cons_of_pos (by decide)]
    exact ih

theorem takeWhile_digits_append {d : List Char} (hd : ∀ c ∈ d, pyDigit c = true)
    {X : List Char} (hX : ∀ c ∈ X.head?, pyDigit c = false) :
    (d ++ X).takeWhile pyDigit = d ∧ (d ++ X).dropWhile pyDigit = X := by
  induction d with
  | nil =>
    simp only [List.nil_append, List.takeWhile, List.dropWhile]
    cases X with
    | nil => exact ⟨rfl, rfl⟩
    | cons x rest =>
      have hx : pyDigit x = false := hX x (by simp)
      constructor
      · simp [List.takeWhile_cons, hx]
      · simp [List.dropWhile_cons, hx]
  | cons c cs ih =>
    have hc : pyDigit c = true := hd c (by simp)
    have ihr := ih (fun x hx => hd x (List.mem_cons_of_mem c hx))
    simp only [List.cons_append]
    constructor
    · rw [List.takeWhile_cons_of_pos hc, ihr.1]
    · rw [List.dropWhile_cons_of_pos hc, ihr.2]

theorem pySpace_cases {c : Char} (h : pySpace c = true) :
    c = ' ' ∨ c = '\t' ∨ c = '\n' ∨ c = '\x0b' ∨ c = '\x0c' ∨ c = '\r' := by
  simp only [pySpace, Bool.or_eq_true, decide_eq_true_eq] at h
  tauto

theorem parenChar_cases {c : Char} (h : parenChar c = true) : c = '(' ∨ c = ')' := by
  simp only [parenChar, Bool.or_eq_true, decide_eq_true_eq] at h
  tauto

theorem pyDigit_not_space {c : Char} (h : pyDigit c = true) : pySpace c = false := by
  cases hs : pySpace c with
  | false => rfl
  | true =>
    rcases pySpace_cases hs with h1 | h1 | h1 | h1 | h1 | h1 <;>
      (subst h1; exact absurd h (by decide))

theorem pyDigit_not_paren {c : Char} (h : pyDigit c = true) : parenChar c = false := by
  cases hs : parenChar c with
  | false => rfl
  | true =>
    rcases parenChar_cases hs with h1 | h1 <;>
      (subst h1; exact absurd h (by decide))

theorem pyDigit_ne {c x : Char} (h : pyDigit c = true) (hx : pyDigit x = false) :
    c ≠ x := fun e => by rw [e, hx] at h; exact Bool.false_ne_true h

theorem pyStrip_digits {d : List Char} (hd : ∀ c ∈ d, pyDigit c = true) :
    pyStrip d = d := by
  cases d with
  | nil => rfl
  | cons c cs =>
    apply stripBy_eq_self
    · exact List.dropWhile_cons_of_neg (by
        simp [pyDigit_not_space (hd c (by simp))])
    · cases hrev : (c :: cs).reverse with
      | nil => simp at hrev
      | cons y ys =>
        have hy : y ∈ (c :: cs) := by
          rw [← List.mem_reverse, hrev]; simp
        exact List.dropWhile_cons_of_neg (by simp [pyDigit_not_space (hd y hy)])

theorem scalMul_zeros (c : ℚ) (X : List ℚ) :
    scalMul c (np_zeros_like X) = np_zeros_like X := by
  simp [scalMul, np_zeros_like, List.map_map, Function.comp]

theorem vecAdd_zeros_zeros (X : List ℚ) :
    vecAdd (np_zeros_like X) (np_zeros_like X) = np_zeros_like X := by
  induction X with
  | nil => rfl
  | cons x xs ih =>
    simp only [np_zeros_like, List.map_cons, vecAdd, List.zipWith_cons_cons, add_zero]
    simp only [np_zeros_like, vecAdd] at ih
    rw [ih]

theorem vecAdd_self_zeros (X : List ℚ) : vecAdd X (np_zeros_like X) = X := by
  induction X with
  | nil => rfl
  | cons x xs ih =>
    simp only [np_zeros_like, List.map_cons, vecAdd, List.zipWith_cons_cons, add_zero]
    simp only [np_zeros_like, vecAdd] at ih
    rw [ih]

/-! ## The claims -/

/-- C1: the spec says the script exits 0 on success and non-zero when no
stencil file is found, no file parses, or requested validation fails.  The
code contradicts this: line 366 calls `main()` without `sys.exit`, so the
process always exits 0; on an empty directory `main` executes a bare `return`
(`None`), and the `return 1` of a failed validation is discarded.  The theorem
evaluates the embedding at both failing runs: the empty-directory run returns
`None`, writes nothing and exits 0, and a run whose validation fails returns 1
yet still exits 0. -/
theorem c1_process_exit_always_zero :
    main [] (fun _ => "") true = (none, "") ∧
    script_exit_code [] (fun _ => "") true = 0 ∧
    (main ["stencil_b.tex"] (fun _ => "\\approx \\bigl(x) \\quad") true).1 = some 1 ∧
    script_exit_code ["stencil_b.tex"] (fun _ => "\\approx \\bigl(x) \\quad") true = 0 :=
  ⟨rfl, rfl, rfl, rfl⟩

/-- C2: the spec's scenario C says `\operatorname{bigl}{\left(r,t \right)}`
normalizes to `\bigl(r,t\bigr)`, and the docstring of
`clean_latex_expression` (line 76) states the same rewrite.  The code
contradicts both: the step-2 regex on line 109 demands the ordering
`...)\right}` while this input ends `...\right)}`, so it never matches and
the expression is returned unchanged. -/
theorem c2_operatorname_bigl_not_rewritten :
    clean_latex_expression "\\operatorname\x7bbigl\x7d\x7b\\left(r,t \\right)\x7d"
      = "\\operatorname\x7bbigl\x7d\x7b\\left(r,t \\right)\x7d" ∧
    clean_latex_expression "\\operatorname\x7bbigl\x7d\x7b\\left(r,t \\right)\x7d"
      ≠ "\\bigl(r,t\\bigr)" :=
  ⟨rfl, by decide⟩

/-- C3 counterexample: normalization is not a fixed point on canonical
expressions.  `f(-\,x)` is itself a normalizer output (it is
`clean_latex_expression "f{- x}"` and has the guaranteed output shape), yet
applying the normalizer twice to it differs from applying it once: each pass
pushes the minus through the `(\+|\()\s*-\s*` spacing rule and inserts one
more thin-space. -/
theorem c3_not_idempotent_on_canonical :
    clean_latex_expression "f\x7b- x\x7d" = "f(-\\,x)" ∧
    clean_latex_expression (clean_latex_expression "f(-\\,x)")
      ≠ clean_latex_expression "f(-\\,x)" :=
  ⟨rfl, by decide⟩

/-- C3 (amended): normalization is a fixed point exactly on the expressions it
already leaves unchanged: if `clean_latex_expression x = x` then applying it
twice equals applying it once.  On other canonical-looking outputs the
counterexample shows idempotence fails. -/
theorem c3_idempotent_on_fixed_points (x : String)
    (h : clean_latex_expression x = x) :
    clean_latex_expression (clean_latex_expression x) = clean_latex_expression x := by
  rw [h]
  exact h

/-- C3 witness: `f(r - h, t)` is a concrete fixed point of the normalizer, and
the amended theorem applies to it. -/
theorem c3_fixed_point_witness :
    clean_latex_expression "f(r - h, t)" = "f(r - h, t)" ∧
    clean_latex_expression (clean_latex_expression "f(r - h, t)")
      = clean_latex_expression "f(r - h, t)" :=
  ⟨rfl, c3_idempotent_on_fixed_points "f(r - h, t)" rfl⟩

/-- C4: the spec says a stencil whose text has no `\approx` right-hand side
yields a placeholder record and the emitter writes a commented-out stub for
it.  Parsing indeed yields the placeholder `\text{No approximation found}`
without aborting, but the emitter's placeholder test (line 307) checks for the
substring `a begin i m p t x`, which the placeholder does not contain, so the
emitter writes the full five-equation RK4 block instead of the stub. -/
theorem c4_placeholder_stub_never_emitted :
    (parse_stencil_file "% Variable: f\n% Order: 2nd\n").approximation
      = "\\text\x7bNo approximation found\x7d" ∧
    containsSub placeholderProbe.data "\\text\x7bNo approximation found\x7d".data = false ∧
    containsSub "% Placeholder".data
      (emit_stencil "r" (parse_stencil_file "% Variable: f\n% Order: 2nd\n") true).data
      = false ∧
    containsSub "k_1^".data
      (emit_stencil "r" (parse_stencil_file "% Variable: f\n% Order: 2nd\n") true).data
      = true :=
  ⟨rfl, by decide, by decide, by decide⟩

/-- C5 counterexample: the claim says the coefficient `N` is omitted whenever
it equals 1, but `clean_function_args` omits it only when the digits are
absent: the argument `- 1 h + r` (coefficient 1 written explicitly) becomes
`r - 1h`, not `r - h`, and `1 h + r` becomes `r + 1h`. -/
theorem c5_explicit_coefficient_one_kept :
    clean_function_args "- 1 h + r" = "r - 1h" ∧
    clean_function_args "- 1 h + r" ≠ "r - h" ∧
    clean_function_args "1 h + r" = "r + 1h" :=
  ⟨rfl, by decide, rfl⟩

/-- C7 counterexample: the claim's input `h - theta` (with a bare `theta`) is
not recognized by the angular-idiom pattern `^h\s*-\s*\\theta$`, which
requires the escaped `\theta`; the bare spelling passes through unchanged
rather than becoming `\theta - h`. -/
theorem c7_bare_theta_not_recognized :
    clean_function_args "h - theta" = "h - theta" ∧
    clean_function_args "h - theta" ≠ "\\theta - h" :=
  ⟨rfl, by decide⟩

/-- C7 (amended): for the escaped angular-step idiom argument `h - \theta`
(with arbitrary spacing around the minus) the canonicalizer's output is
exactly the order-reversed `\theta - h`. -/
theorem c7_escaped_theta_reversed :
    clean_function_args "h - \\theta" = "\\theta - h" ∧
    clean_function_args "h-\\theta" = "\\theta - h" ∧
    clean_function_args "h   -   \\theta" = "\\theta - h" :=
  ⟨rfl, rfl, rfl⟩

/-- C9: `integrate_step` evolves nothing: all four RK4 stage derivatives are
the zero vector, so the weighted-combination update returns the state vector
unchanged, for every state and every timestep (floating-point arithmetic
modelled as exact rational arithmetic). -/
theorem c9_integrate_step_returns_input (X : List ℚ) (dt : ℚ) :
    integrate_step X dt = X := by
  show vecAdd X (scalMul (dt / 6)
      (vecAdd (vecAdd (vecAdd (np_zeros_like X) (scalMul 2 (np_zeros_like X)))
        (scalMul 2 (np_zeros_like X))) (np_zeros_like X))) = X
  rw [scalMul_zeros, vecAdd_zeros_zeros, vecAdd_zeros_zeros, vecAdd_zeros_zeros,
    scalMul_zeros, vecAdd_self_zeros]

/-! ### Lemmas for the shifted-coordinate characterization (C5) -/

theorem hPlusRTail_hprTail (c e : Nat) : hPlusRTail (hprTail c e) = true := by
  have h1 : (spc c ++ ('+' :: (spc e ++ ['r']))).dropWhile pySpace
      = '+' :: (spc e ++ ['r']) := by
    rw [dropWhile_spc_append]
    exact List.dropWhile_cons_of_neg (by decide)
  have h2 : (spc e ++ ['r']).dropWhile pySpace = ['r'] := by
    rw [dropWhile_spc_append]
    exact List.dropWhile_cons_of_neg (by decide)
  simp only [hprTail, hPlusRTail, h1, h2]
  rfl

theorem head_spc_hprTail_not_digit (b c e : Nat) :
    ∀ x ∈ (spc b ++ hprTail c e).head?, pyDigit x = false := by
  cases b with
  | zero => intro x hx; simp [spc, hprTail] at hx; subst hx; decide
  | succ k =>
    intro x hx
    simp [spc, List.replicate_succ] at hx
    subst hx; decide

theorem matchNegHR_cons_ne {x : Char} {rest : List Char} (h : ¬ (x = '-')) :
    matchNegHR (x :: rest) = none := by
  unfold matchNegHR
  split
  · rename_i heq
    rw [List.cons.injEq] at heq
    exact absurd heq.1 (fun e => h e)
  · rfl

theorem mem_posShiftArg_cases {x : Char} {d : List Char} {b c e : Nat}
    (h : x ∈ posShiftArg d b c e) :
    x ∈ d ∨ x = ' ' ∨ x = 'h' ∨ x = '+' ∨ x = 'r' := by
  simp only [posShiftArg, hprTail, spc, List.mem_append, List.mem_cons,
    List.mem_replicate, List.mem_singleton, List.not_mem_nil] at h
  tauto

theorem mem_negShiftArg_cases {x : Char} {a : Nat} {d : List Char} {b c e : Nat}
    (h : x ∈ negShiftArg a d b c e) :
    x ∈ d ∨ x = '-' ∨ x = ' ' ∨ x = 'h' ∨ x = '+' ∨ x = 'r' := by
  simp only [negShiftArg, List.mem_cons, List.mem_append] at h
  rcases h with h | h | h
  · tauto
  · simp only [spc, List.mem_replicate] at h; tauto
  · have := mem_posShiftArg_cases h; tauto

/-- The six delimiter patterns removed on lines 165-167 all contain a
backslash, so an argument without backslashes passes the removals unchanged. -/
theorem removals_id_of_no_backslash {l : List Char} (h : '\\' ∉ l) :
    removeAll latexStripPats3 (removeAll latexStripPats2 (removeAll latexStripPats1 l))
      = l := by
  have k1 : removeAll latexStripPats1 l = l := by
    apply removeAll_id
    intro p hp
    apply containsSub_eq_false '\\' _ h
    simp only [latexStripPats1, List.mem_cons, List.mem_singleton,
      List.not_mem_nil, or_false] at hp
    rcases hp with h1 | h1 <;> (subst h1; decide)
  have k2 : removeAll latexStripPats2 l = l := by
    apply removeAll_id
    intro p hp
    apply containsSub_eq_false '\\' _ h
    simp only [latexStripPats2, List.mem_cons, List.mem_singleton,
      List.not_mem_nil, or_false] at hp
    rcases hp with h1 | h1 <;> (subst h1; decide)
  have k3 : removeAll latexStripPats3 l = l := by
    apply removeAll_id
    intro p hp
    apply containsSub_eq_false '\\' _ h
    simp only [latexStripPats3, List.mem_cons, List.mem_singleton,
      List.not_mem_nil, or_false] at hp
    rcases hp with h1 | h1 <;> (subst h1; decide)
  rw [k1, k2, k3]

/-- With no backslash and no comma in the argument string,
`clean_function_args` reduces to the single-argument loop body. -/
theorem cleanFunctionArgsL_single {l : List Char} (hnb : '\\' ∉ l)
    (hnc : ',' ∉ l) : cleanFunctionArgsL l = cleanOneArg (pyStrip l) := by
  show joinCommaSp (((splitComma
      (removeAll latexStripPats3 (removeAll latexStripPats2
        (removeAll latexStripPats1 l)))).map pyStrip).map cleanOneArg) = _
  rw [removals_id_of_no_backslash hnb, splitComma_of_not_mem hnc]
  rfl

theorem pyStrip_hprTail (c e : Nat) : pyStrip (hprTail c e) = hprTail c e := by
  have hform : hprTail c e = ('h' :: (spc c ++ ('+' :: spc e))) ++ ['r'] := by
    simp [hprTail, List.append_assoc]
  apply stripBy_eq_self
  · exact List.dropWhile_cons_of_neg (by decide)
  · rw [hform, List.reverse_append]
    exact List.dropWhile_cons_of_neg (by decide)

theorem pyStripParens_hprTail (c e : Nat) :
    pyStripParens (hprTail c e) = hprTail c e := by
  have hform : hprTail c e = ('h' :: (spc c ++ ('+' :: spc e))) ++ ['r'] := by
    simp [hprTail, List.append_assoc]
  apply stripBy_eq_self
  · exact List.dropWhile_cons_of_neg (by decide)
  · rw [hform, List.reverse_append]
    exact List.dropWhile_cons_of_neg (by decide)

theorem pyStrip_negShiftArg (a : Nat) (d : List Char) (b c e : Nat) :
    pyStrip (negShiftArg a d b c e) = negShiftArg a d b c e := by
  have hform : negShiftArg a d b c e
      = ('-' :: (spc a ++ (d ++ (spc b ++ ('h' :: (spc c ++ ('+' :: spc e)))))))
        ++ ['r'] := by
    simp [negShiftArg, posShiftArg, hprTail, List.append_assoc]
  apply stripBy_eq_self
  · exact List.dropWhile_cons_of_neg (by decide)
  · rw [hform, List.reverse_append]
    exact List.dropWhile_cons_of_neg (by decide)

theorem pyStripParens_negShiftArg (a : Nat) (d : List Char) (b c e : Nat) :
    pyStripParens (negShiftArg a d b c e) = negShiftArg a d b c e := by
  have hform : negShiftArg a d b c e
      = ('-' :: (spc a ++ (d ++ (spc b ++ ('h' :: (spc c ++ ('+' :: spc e)))))))
        ++ ['r'] := by
    simp [negShiftArg, posShiftArg, hprTail, List.append_assoc]
  apply stripBy_eq_self
  · exact List.dropWhile_cons_of_neg (by decide)
  · rw [hform, List.reverse_append]
    exact List.dropWhile_cons_of_neg (by decide)

theorem pyStrip_posShiftArg_cons {x : Char} {ds : List Char} (b c e : Nat)
    (hx : pyDigit x = true) :
    pyStrip (posShiftArg (x :: ds) b c e) = posShiftArg (x :: ds) b c e := by
  have hform : posShiftArg (x :: ds) b c e
      = (x :: (ds ++ (spc b ++ ('h' :: (spc c ++ ('+' :: spc e)))))) ++ ['r'] := by
    simp [posShiftArg, hprTail, List.append_assoc]
  apply stripBy_eq_self
  · rw [show posShiftArg (x :: ds) b c e
        = x :: (ds ++ (spc b ++ hprTail c e)) by simp [posShiftArg]]
    exact List.dropWhile_cons_of_neg (by simp [pyDigit_not_space hx])
  · rw [hform, List.reverse_append]
    exact List.dropWhile_cons_of_neg (by decide)

theorem pyStripParens_posShiftArg_cons {x : Char} {ds : List Char} (b c e : Nat)
    (hx : pyDigit x = true) :
    pyStripParens (posShiftArg (x :: ds) b c e) = posShiftArg (x :: ds) b c e := by
  have hform : posShiftArg (x :: ds) b c e
      = (x :: (ds ++ (spc b ++ ('h' :: (spc c ++ ('+' :: spc e)))))) ++ ['r'] := by
    simp [posShiftArg, hprTail, List.append_assoc]
  apply stripBy_eq_self
  · rw [show posShiftArg (x :: ds) b c e
        = x :: (ds ++ (spc b ++ hprTail c e)) by simp [posShiftArg]]
    exact List.dropWhile_cons_of_neg (by simp [pyDigit_not_paren hx])
  · rw [hform, List.reverse_append]
    exact List.dropWhile_cons_of_neg (by decide)

theorem pyStrip_posShiftArg_nil (b c e : Nat) :
    pyStrip (posShiftArg [] b c e) = hprTail c e := by
  show stripBy pySpace (posShiftArg [] b c e) = hprTail c e
  have h1 : (posShiftArg [] b c e).dropWhile pySpace = hprTail c e := by
    rw [show posShiftArg [] b c e = spc b ++ hprTail c e by simp [posShiftArg]]
    rw [dropWhile_spc_append]
    exact List.dropWhile_cons_of_neg (by decide)
  unfold stripBy
  rw [h1]
  have h2 := pyStrip_hprTail c e
  unfold pyStrip stripBy at h2
  rw [show (hprTail c e).dropWhile pySpace = hprTail c e from
    List.dropWhile_cons_of_neg (by decide)] at h2
  exact h2

theorem matchPosHR_posShiftArg (b c e : Nat) (d : List Char)
    (hd : ∀ x ∈ d, pyDigit x = true) :
    matchPosHR (posShiftArg d b c e) = some d := by
  have hsplit := takeWhile_digits_append hd (X := spc b ++ hprTail c e)
    (head_spc_hprTail_not_digit b c e)
  show (if hPlusRTail (((posShiftArg d b c e).dropWhile pyDigit).dropWhile pySpace)
    then some ((posShiftArg d b c e).takeWhile pyDigit) else none) = some d
  rw [show posShiftArg d b c e = d ++ (spc b ++ hprTail c e) from rfl]
  rw [hsplit.1, hsplit.2, dropWhile_spc_append,
    show (hprTail c e).dropWhile pySpace = hprTail c e from
      List.dropWhile_cons_of_neg (by decide),
    hPlusRTail_hprTail]
  rfl

theorem matchPosHR_hprTail (c e : Nat) : matchPosHR (hprTail c e) = some [] := by
  show (if hPlusRTail (((hprTail c e).dropWhile pyDigit).dropWhile pySpace)
    then some ((hprTail c e).takeWhile pyDigit) else none) = some []
  rw [show (hprTail c e).takeWhile pyDigit = [] from
      List.takeWhile_cons_of_neg (by decide),
    show (hprTail c e).dropWhile pyDigit = hprTail c e from
      List.dropWhile_cons_of_neg (by decide),
    show (hprTail c e).dropWhile pySpace = hprTail c e from
      List.dropWhile_cons_of_neg (by decide),
    hPlusRTail_hprTail]
  rfl

theorem matchNegHR_negShiftArg (a b c e : Nat) (d : List Char)
    (hd : ∀ x ∈ d, pyDigit x = true) :
    matchNegHR (negShiftArg a d b c e) = some d := by
  show (if hPlusRTail ((((spc a ++ posShiftArg d b c e).dropWhile
        pySpace).dropWhile pyDigit).dropWhile pySpace)
    then some (((spc a ++ posShiftArg d b c e).dropWhile pySpace).takeWhile pyDigit)
    else none) = some d
  rw [dropWhile_spc_append]
  cases d with
  | nil =>
    rw [show (posShiftArg [] b c e).dropWhile pySpace = hprTail c e by
      rw [show posShiftArg [] b c e = spc b ++ hprTail c e by simp [posShiftArg]]
      rw [dropWhile_spc_append]
      exact List.dropWhile_cons_of_neg (by decide)]
    rw [show (hprTail c e).takeWhile pyDigit = [] from
        List.takeWhile_cons_of_neg (by decide),
      show (hprTail c e).dropWhile pyDigit = hprTail c e from
        List.dropWhile_cons_of_neg (by decide),
      show (hprTail c e).dropWhile pySpace = hprTail c e from
        List.dropWhile_cons_of_neg (by decide),
      hPlusRTail_hprTail]
    rfl
  | cons x ds =>
    have hx : pyDigit x = true := hd x (by simp)
    have hsplit := takeWhile_digits_append hd (X := spc b ++ hprTail c e)
      (head_spc_hprTail_not_digit b c e)
    rw [show (posShiftArg (x :: ds) b c e).dropWhile pySpace
        = posShiftArg (x :: ds) b c e by
      rw [show posShiftArg (x :: ds) b c e
          = x :: (ds ++ (spc b ++ hprTail c e)) by simp [posShiftArg]]
      exact List.dropWhile_cons_of_neg (by simp [pyDigit_not_space hx])]
    rw [show posShiftArg (x :: ds) b c e
        = (x :: ds) ++ (spc b ++ hprTail c e) from rfl]
    rw [hsplit.1, hsplit.2, dropWhile_spc_append,
      show (hprTail c e).dropWhile pySpace = hprTail c e from
        List.dropWhile_cons_of_neg (by decide),
      hPlusRTail_hprTail]
    rfl

theorem cleanOneArg_negShiftArg (a b c e : Nat) (d : List Char)
    (hd : ∀ x ∈ d, pyDigit x = true) :
    cleanOneArg (pyStrip (negShiftArg a d b c e))
      = (if d.isEmpty then "r - h".data else "r - ".data ++ d ++ "h".data) := by
  simp only [cleanOneArg, pyStrip_negShiftArg, pyStripParens_negShiftArg,
    matchNegHR_negShiftArg a b c e d hd, pyStrip_digits hd]

theorem cleanOneArg_posShiftArg (b c e : Nat) (d : List Char)
    (hd : ∀ x ∈ d, pyDigit x = true) :
    cleanOneArg (pyStrip (posShiftArg d b c e))
      = (if d.isEmpty then "r + h".data else "r + ".data ++ d ++ "h".data) := by
  cases d with
  | nil =>
    rw [pyStrip_posShiftArg_nil]
    have hneg : matchNegHR (hprTail c e) = none := matchNegHR_cons_ne (by decide)
    simp only [cleanOneArg, pyStrip_hprTail, pyStripParens_hprTail, hneg,
      matchPosHR_hprTail]
    rfl
  | cons x ds =>
    have hx : pyDigit x = true := hd x (by simp)
    rw [pyStrip_posShiftArg_cons b c e hx]
    have hneg : matchNegHR (posShiftArg (x :: ds) b c e) = none := by
      rw [show posShiftArg (x :: ds) b c e
          = x :: (ds ++ (spc b ++ hprTail c e)) by simp [posShiftArg]]
      exact matchNegHR_cons_ne (by
        intro hEq
        rw [hEq] at hx
        exact absurd hx (by decide))
    simp only [cleanOneArg, pyStrip_posShiftArg_cons b c e hx,
      pyStripParens_posShiftArg_cons b c e hx, hneg,
      matchPosHR_posShiftArg b c e (x :: ds) hd, pyStrip_digits hd]

/-- C5 (amended): for a raw shifted-coordinate argument
`- (optional digits) h + r` or `(optional digits) h + r` with arbitrary
internal spacing, `clean_function_args` emits `r - Nh` respectively `r + Nh`,
where the digits `N` are omitted exactly when they are absent from the input
(an explicitly written coefficient `1` is kept as `1h`). -/
theorem c5_shifted_coordinate_characterization (a b c e : Nat) (d : List Char)
    (hd : ∀ x ∈ d, pyDigit x = true) :
    clean_function_args (strOf (negShiftArg a d b c e))
      = strOf (if d.isEmpty then "r - h".data else "r - ".data ++ d ++ "h".data) ∧
    clean_function_args (strOf (posShiftArg d b c e))
      = strOf (if d.isEmpty then "r + h".data else "r + ".data ++ d ++ "h".data) := by
  have hnbNeg : '\\' ∉ negShiftArg a d b c e := by
    intro hm
    rcases mem_negShiftArg_cases hm with h | h | h | h | h | h
    · exact absurd (hd _ h) (by decide)
    all_goals exact absurd h (by decide)
  have hncNeg : ',' ∉ negShiftArg a d b c e := by
    intro hm
    rcases mem_negShiftArg_cases hm with h | h | h | h | h | h
    · exact absurd (hd _ h) (by decide)
    all_goals exact absurd h (by decide)
  have hnbPos : '\\' ∉ posShiftArg d b c e := by
    intro hm
    rcases mem_posShiftArg_cases hm with h | h | h | h | h
    · exact absurd (hd _ h) (by decide)
    all_goals exact absurd h (by decide)
  have hncPos : ',' ∉ posShiftArg d b c e := by
    intro hm
    rcases mem_posShiftArg_cases hm with h | h | h | h | h
    · exact absurd (hd _ h) (by decide)
    all_goals exact absurd h (by decide)
  constructor
  · show strOf (cleanFunctionArgsL (negShiftArg a d b c e)) = _
    rw [cleanFunctionArgsL_single hnbNeg hncNeg,
      cleanOneArg_negShiftArg a b c e d hd]
  · show strOf (cleanFunctionArgsL (posShiftArg d b c e)) = _
    rw [cleanFunctionArgsL_single hnbPos hncPos,
      cleanOneArg_posShiftArg b c e d hd]

/-- C5 witness: the characterization applied at concrete spacing and the
digit string `2` gives the spec's own examples. -/
theorem c5_shifted_coordinate_witness :
    clean_function_args "- 2 h + r" = "r - 2h" ∧
    clean_function_args "2 h + r" = "r + 2h" := by
  have h := c5_shifted_coordinate_characterization 1 1 1 1 ['2'] (by decide)
  exact ⟨h.1, h.2⟩

/-! ### Lemmas and theorems for the passthrough argument path (C6) -/

theorem matchPosHRPlus_none_of {l : List Char} (h : matchPosHR l = none) :
    matchPosHRPlus l = none := by
  unfold matchPosHR at h
  unfold matchPosHRPlus
  by_cases he : (l.takeWhile pyDigit).isEmpty
  · simp [he]
  · cases ht : hPlusRTail ((l.dropWhile pyDigit).dropWhile pySpace) with
    | false => simp [he, ht]
    | true => rw [ht] at h; simp at h

/-- C6 counterexample: the claim allows only a single redundant enclosing
parenthesis pair to be stripped, with no other characters added or removed,
so it predicts `((x))` ↦ `(x)`.  The code's `strip('()')` removes every
leading and trailing parenthesis character, giving `x`. -/
theorem c6_double_parens_counterexample :
    clean_function_args "((x))" = "x" ∧ clean_function_args "((x))" ≠ "(x)" :=
  ⟨rfl, by decide⟩

/-- C6 (amended): a single-argument input (no comma, no backslash delimiter
commands) that matches none of the shifted-coordinate or angular idioms is
passed through as follows: whitespace is stripped at the ends, every leading
and trailing parenthesis character is stripped (matched or not), the interior
whitespace is collapsed to single spaces, and one further enclosing
parenthesis pair is removed if the result is still parenthesised. -/
theorem c6_passthrough_characterization (s : String)
    (hnb : '\\' ∉ s.data) (hnc : ',' ∉ s.data)
    (h1 : matchNegHR (pyStripParens (pyStrip s.data)) = none)
    (h2 : matchPosHR (pyStripParens (pyStrip s.data)) = none)
    (h3 : matchThetaArg (pyStripParens (pyStrip s.data)) = false) :
    clean_function_args s
      = strOf (stripOuterParen (collapseWs (pyStrip (pyStripParens (pyStrip s.data))))) := by
  show strOf (cleanFunctionArgsL s.data) = _
  rw [cleanFunctionArgsL_single hnb hnc]
  have hidem : pyStrip (pyStrip s.data) = pyStrip s.data := stripBy_idem pySpace s.data
  have h2' : matchPosHRPlus (pyStripParens (pyStrip s.data)) = none :=
    matchPosHRPlus_none_of h2
  simp only [cleanOneArg, hidem, h1, h2, h2', h3]
  simp

/-- C6 witness: the characterization applied to the concrete non-idiom
argument `( (x) )`. -/
theorem c6_passthrough_witness : clean_function_args "( (x) )" = "x" := by
  have h := c6_passthrough_characterization "( (x) )"
    (by decide) (by decide) (by decide) (by decide) (by decide)
  exact h.trans (by decide)

/-! ### Lemmas and theorems for the balance validator (C8) -/

theorem add_parenDelta (c : Char) (n : Int) :
    (if c = '(' then n + 1 else if c = ')' then n - 1 else n) = n + parenDelta c := by
  unfold parenDelta
  by_cases h1 : c = '('
  · simp [h1]
  · by_cases h2 : c = ')'
    · simp [h1, h2]
      ring
    · simp [h1, h2]

theorem parenWalk_cons (c : Char) (rest : List Char) (n : Int) :
    parenWalk (c :: rest) n
      = if n + parenDelta c < 0 then none else parenWalk rest (n + parenDelta c) := by
  show (if (if c = '(' then n + 1 else if c = ')' then n - 1 else n) < 0 then none
    else parenWalk rest (if c = '(' then n + 1 else if c = ')' then n - 1 else n)) = _
  rw [add_parenDelta]

theorem netParen_cons (c : Char) (rest : List Char) :
    netParen (c :: rest) = parenDelta c + netParen rest := rfl

theorem parenWalk_some_spec :
    ∀ (b : List Char) (n m : Int), 0 ≤ n → parenWalk b n = some m →
      m = n + netParen b ∧ ∀ k, 0 ≤ n + netParen (b.take k) := by
  intro b
  induction b with
  | nil =>
    intro n m h0 h
    simp only [parenWalk, Option.some.injEq] at h
    subst h
    refine ⟨by simp [netParen], fun k => ?_⟩
    simp [List.take_nil, netParen]
    exact h0
  | cons c rest ih =>
    intro n m h0 h
    rw [parenWalk_cons] at h
    by_cases hneg : n + parenDelta c < 0
    · rw [if_pos hneg] at h; exact absurd h (by simp)
    · rw [if_neg hneg] at h
      have h0' : 0 ≤ n + parenDelta c := le_of_not_lt hneg
      obtain ⟨hm, hk⟩ := ih (n + parenDelta c) m h0' h
      constructor
      · rw [hm, netParen_cons]; ring
      · intro k
        cases k with
        | zero => simpa [netParen] using h0
        | succ k' =>
          have hx := hk k'
          simp only [List.take_succ_cons, netParen_cons]
          linarith

theorem parenWalk_of_prefixes :
    ∀ (b : List Char) (n : Int), (∀ k, 0 ≤ n + netParen (b.take k)) →
      parenWalk b n = some (n + netParen b) := by
  intro b
  induction b with
  | nil => intro n _; simp [parenWalk, netParen]
  | cons c rest ih =>
    intro n h
    rw [parenWalk_cons]
    have h1 : 0 ≤ n + parenDelta c := by
      have hx := h 1
      simpa [List.take_succ_cons, netParen] using hx
    rw [if_neg (not_lt.2 h1)]
    have h2 : ∀ k, 0 ≤ (n + parenDelta c) + netParen (rest.take k) := by
      intro k
      have hx := h (k + 1)
      simp only [List.take_succ_cons, netParen_cons] at hx
      linarith
    rw [ih (n + parenDelta c) h2, netParen_cons]
    congr 1
    ring

theorem parenWalk_zero_iff_dyck (b : List Char) :
    parenWalk b 0 = some 0 ↔ dyckBalanced b := by
  constructor
  · intro h
    obtain ⟨hm, hk⟩ := parenWalk_some_spec b 0 0 le_rfl h
    refine ⟨fun k => by simpa using hk k, ?_⟩
    have : (0 : Int) = netParen b := by simpa using hm
    omega
  · rintro ⟨hk, hz⟩
    have hw := parenWalk_of_prefixes b 0 (fun k => by simpa using hk k)
    rw [hw, hz]
    simp

theorem ne_of_head_ne {a b : String} (h : a.data.head? ≠ b.data.head?) :
    a ≠ b := fun e => h (by rw [e])

theorem ne_of_heads {a b : String} {c d : Char} (ha : a.data.head? = some c)
    (hb : b.data.head? = some d) (hcd : ¬ (c = d)) : a ≠ b := by
  intro e
  subst e
  rw [ha] at hb
  injection hb with h
  exact hcd h

theorem checkBlocks_none_iff :
    ∀ (bs : List (List Char)) (i : Nat),
      checkBlocks bs i = none ↔ ∀ b ∈ bs, parenWalk b 0 = some 0 := by
  intro bs
  induction bs with
  | nil => intro i; simp [checkBlocks]
  | cons b rest ih =>
    intro i
    cases hw : parenWalk b 0 with
    | none =>
      simp only [checkBlocks, hw]
      constructor
      · intro h; exact absurd h (by simp)
      · intro h
        have hx := h b (by simp)
        rw [hw] at hx
        exact absurd hx (by simp)
    | some n =>
      simp only [checkBlocks, hw]
      by_cases hn : n = 0
      · subst hn
        rw [if_pos rfl]
        constructor
        · intro h b' hb'
          rcases List.mem_cons.1 hb' with hb | hb
          · rw [hb]; exact hw
          · exact ((ih (i + 1)).1 h) b' hb
        · intro h
          exact (ih (i + 1)).2 (fun b' hb' => h b' (List.mem_cons_of_mem b hb'))
      · rw [if_neg hn]
        constructor
        · intro h; exact absurd h (by simp)
        · intro h
          have hx := h b (by simp)
          rw [hw] at hx
          simp only [Option.some.injEq] at hx
          exact absurd hx hn

theorem checkBlocks_msg_ne :
    ∀ (bs : List (List Char)) (i : Nat) (m : String),
      checkBlocks bs i = some m → m ≠ "All delimiters balanced" := by
  intro bs
  induction bs with
  | nil => intro i m h; simp [checkBlocks] at h
  | cons b rest ih =>
    intro i m h
    cases hw : parenWalk b 0 with
    | none =>
      simp only [checkBlocks, hw, Option.some.injEq] at h
      rw [← h]
      exact ne_of_heads rfl rfl (by decide)
    | some n =>
      simp only [checkBlocks, hw] at h
      by_cases hn : n = 0
      · subst hn
        rw [if_pos rfl] at h
        exact ih (i + 1) m h
      · rw [if_neg hn] at h
        simp only [Option.some.injEq] at h
        rw [← h]
        exact ne_of_heads rfl rfl (by decide)

/-- C8: `validate_latex_balance` reports balanced exactly when every counted
pair matches: the `\[`/`\]` counts are equal, the `\bigl(`/`\bigr)` counts
are equal, and the plain parentheses inside each math block are balanced (no
prefix closes more than it opened and the block closes everything); when it
reports unbalanced the accompanying message is one of the descriptive
mismatch messages, never the balanced one. -/
theorem c8_validate_balance_iff (t : String) :
    ((validate_latex_balance t).1 = true ↔ latexBalancedSpec t.data) ∧
    ((validate_latex_balance t).1 = false
      → (validate_latex_balance t).2 ≠ "All delimiters balanced") := by
  by_cases h1 : countSub "\\[".data t.data = countSub "\\]".data t.data
  · by_cases h2 : countSub "\\bigl(".data t.data = countSub "\\bigr)".data t.data
    · cases hc : checkBlocks (mathBlocks t.data) 0 with
      | some msg =>
        have hval : validate_latex_balance t = (false, msg) := by
          unfold validate_latex_balance
          rw [if_pos h1, if_pos h2, hc]
        constructor
        · rw [hval]
          constructor
          · intro h; exact absurd h (by simp)
          · rintro ⟨_, _, hblocks⟩
            have : checkBlocks (mathBlocks t.data) 0 = none :=
              (checkBlocks_none_iff _ 0).2
                (fun b hb => (parenWalk_zero_iff_dyck b).2 (hblocks b hb))
            rw [hc] at this
            exact absurd this (by simp)
        · intro _
          rw [hval]
          exact checkBlocks_msg_ne _ 0 msg hc
      | none =>
        have hval : validate_latex_balance t = (true, "All delimiters balanced") := by
          unfold validate_latex_balance
          rw [if_pos h1, if_pos h2, hc]
        constructor
        · rw [hval]
          constructor
          · intro _
            exact ⟨h1, h2, fun b hb => (parenWalk_zero_iff_dyck b).1
              (((checkBlocks_none_iff _ 0).1 hc) b hb)⟩
          · intro _; rfl
        · rw [hval]
          intro h; exact absurd h (by simp)
    · have hval : (validate_latex_balance t).1 = false
          ∧ (validate_latex_balance t).2 = "Unbalanced delimiters: "
            ++ Nat.repr (countSub "\\bigl(".data t.data) ++ " \\bigl( vs "
            ++ Nat.repr (countSub "\\bigr)".data t.data) ++ " \\bigr)" := by
        unfold validate_latex_balance
        rw [if_pos h1, if_neg h2]
        exact ⟨rfl, rfl⟩
      constructor
      · rw [hval.1]
        constructor
        · intro h; exact absurd h (by simp)
        · rintro ⟨_, hx, _⟩; exact absurd hx h2
      · intro _
        rw [hval.2]
        exact ne_of_heads rfl rfl (by decide)
  · have hval : (validate_latex_balance t).1 = false
        ∧ (validate_latex_balance t).2 = "Unbalanced math blocks: "
          ++ Nat.repr (countSub "\\[".data t.data) ++ " \\[ vs "
          ++ Nat.repr (countSub "\\]".data t.data) ++ " \\]" := by
      unfold validate_latex_balance
      rw [if_neg h1]
      exact ⟨rfl, rfl⟩
    constructor
    · rw [hval.1]
      constructor
      · intro h; exact absurd h (by simp)
      · rintro ⟨hx, _, _⟩; exact absurd hx h1
    · intro _
      rw [hval.2]
      exact ne_of_heads rfl rfl (by decide)

/-- C8 witness: on the concrete document `\[)(\]` (balanced in counts but with
a misordered plain parenthesis pair inside the math block) the validator
reports unbalanced with a descriptive message. -/
theorem c8_validate_balance_witness :
    (validate_latex_balance "\\[)(\\]").1 = false ∧
    (validate_latex_balance "\\[)(\\]").2 ≠ "All delimiters balanced" :=
  ⟨rfl, (c8_validate_balance_iff "\\[)(\\]").2 rfl⟩
/-- C10: `clean_latex_expression` returns on line 138, immediately after the
spacing step, so its result is the composition of steps 1-5 alone; the
statements on lines 140-157 are unreachable.  The second conjunct shows the
unreachable code is not a no-op: applied to the normalizer's own output for
`f{- x}` it would change the result, so the early return genuinely determines
the function's behaviour. -/
theorem c10_returns_after_spacing_step :
    (∀ e : String, clean_latex_expression e = strOf (cleanSteps1to5 e.data)) ∧
    strOf (cleanDeadCode (clean_latex_expression "f\x7b- x\x7d").data)
      ≠ clean_latex_expression "f\x7b- x\x7d" :=
  ⟨fun _ => rfl, by decide⟩

end WarpSolver
